import Mathlib

/-!
# Verification of the V8 log-utils message construction and emission layer

A shallow embedding of `src/log-utils.cc` (the `Log` channel and
`Log::MessageBuilder`), with theorems settling the specified properties of
the append/escape/flush pipeline.

Strings read from the heap (`String*`) are modelled as an optional record of
16-bit code units plus representation flags; the fixed shared buffer is
modelled by the meaningful byte region `content` together with the explicit
write cursor `pos_`; printf-style appends are modelled by `appendVA` applied
to the rendered fragment, with V8's `VSNPrintF` truncation semantics
(`-1`/pin-to-capacity on overflow, partial bytes plus a NUL written by
`vsnprintf` into the tail).
-/

namespace LogUtils

/-- Modelled from the spec: the fixed capacity of the shared message buffer
(`Log::kMessageBufferSize` lives in the header `log-utils.h`, which is not
part of the sources here; the spec fixes it as a configured constant of
2 KiB). -/
def kMessageBufferSize : Nat := 2048

/-- `Log::kLogToTemporaryFile`: the destination-spec sentinel `"&"`. -/
def kLogToTemporaryFile : List Char := ['&']

/-- `Log::kLogToConsole`: the destination-spec sentinel `"-"`. -/
def kLogToConsole : List Char := ['-']

/-- The NUL byte written by `vsnprintf`/`strncpy`. -/
def nulChar : Char := Char.ofNat 0

/-- The builder's view of the shared buffer: `content` is the byte region
`[0, …)` of `message_buffer_` that has been meaningfully written during the
current scope, and `pos` is the source's `pos_` cursor.  Every operation
maintains `content.length = pos` (proved below as `inv` preservation). -/
structure Builder where
  content : List Char
  pos : Nat
deriving DecidableEq, Repr

/-- The fresh builder produced by `Log::MessageBuilder::MessageBuilder`
(cursor reset to 0, nothing written yet in this scope). -/
def Builder.empty : Builder := ⟨[], 0⟩

/-- The cursor/content agreement invariant. -/
def Builder.inv (b : Builder) : Prop := b.content.length = b.pos

/-- The `Log` channel state.  `outputHandle` is `output_handle_` (abstract
handles are numbered); `messageBufferAllocated` records whether
`message_buffer_` is live; `isStopped` is `is_stopped_`; `logFailures`
counts calls to `logger_->LogFailure()`; `flagLogfile` is the
`FLAG_logfile` destination spec; `writeCalls` records the byte regions
handed to the channel's write primitive, one entry per call. -/
structure LogState where
  outputHandle : Option Nat
  messageBufferAllocated : Bool
  isStopped : Bool
  logFailures : Nat
  flagLogfile : List Char
  writeCalls : List (List Char)
deriving DecidableEq, Repr

/-- `Log::IsEnabled`: the channel is enabled iff a destination is open
(modelled from the spec: "`enabled`: derived — true iff a destination is
open"; the accessor lives in the header). -/
def isEnabled (log : LogState) : Bool := log.outputHandle.isSome

/-- `Log::stop`: permanently disables the session (modelled from the spec's
"permanently disables the channel"; the mutator lives in the header). -/
def stop (log : LogState) : LogState := { log with isStopped := true }

/-- `logger_->LogFailure()`: notify the failure sink once (modelled from the
spec: "the core calls a single 'log failure' notification"). -/
def logFailure (log : LogState) : LogState :=
  { log with logFailures := log.logFailures + 1 }

/-- `Log::WriteToFile(msg, length)`: modelled from the spec: "writes exactly
`bytes` to the underlying resource if enabled; if disabled, is a no-op
returning 0" (the member lives in the header).  The underlying resource's
acceptance is abstracted by `oracle`, mapping a requested byte count to the
count actually written; each call made while enabled is recorded in
`writeCalls`. -/
def writeToFile (oracle : Nat → Nat) (log : LogState) (bytes : List Char) :
    Nat × LogState :=
  if isEnabled log then
    (oracle bytes.length, { log with writeCalls := log.writeCalls ++ [bytes] })
  else
    (0, log)

/-- A heap `String*` value: its 16-bit code units (`String::Get`) plus the
representation flags consulted by `AppendDetailed`'s impl-info prefix. -/
structure HeapString where
  codes : List Nat
  oneByte : Bool
  external : Bool
  internalized : Bool
deriving DecidableEq, Repr

/-- `Log::MessageBuilder::Append(const char c)`: write one byte at the
cursor and advance, only if `pos_ < kMessageBufferSize`; otherwise a silent
no-op. -/
def appendChar (c : Char) (b : Builder) : Builder :=
  if b.pos < kMessageBufferSize then ⟨b.content ++ [c], b.pos + 1⟩ else b

/-- `Log::MessageBuilder::AppendVA` applied to the rendered output
`rendered` of the format string: `VSNPrintF` into the tail
`[pos_, kMessageBufferSize)`.  If the rendering (plus its NUL) fits, the
bytes are written and the cursor advances; otherwise `VSNPrintF` returns
`-1` — `vsnprintf` has deposited the truncated prefix plus a terminating
NUL into the tail (nothing when the tail is empty) — and the cursor is
pinned to `kMessageBufferSize`. -/
def appendVA (rendered : List Char) (b : Builder) : Builder :=
  if rendered.length < kMessageBufferSize - b.pos then
    ⟨b.content ++ rendered, b.pos + rendered.length⟩
  else if kMessageBufferSize - b.pos = 0 then
    ⟨b.content, kMessageBufferSize⟩
  else
    ⟨b.content ++ rendered.take (kMessageBufferSize - b.pos - 1) ++ [nulChar],
     kMessageBufferSize⟩

/-- `v8::internal::StrNCpy` (i.e. `strncpy`) of `n` bytes from `str`:
copies up to `n` characters, NUL-padding when `str` is shorter. -/
def strNCpy (str : List Char) (n : Nat) : List Char :=
  str.take n ++ List.replicate (n - str.length) nulChar

/-- `Log::MessageBuilder::AppendStringPart(str, len)`: clip `len` to the
remaining capacity (returning early if nothing remains), then `StrNCpy`
into the tail and advance the cursor by the clipped length. -/
def appendStringPart (str : List Char) (len : Nat) (b : Builder) : Builder :=
  if b.pos + len > kMessageBufferSize then
    if kMessageBufferSize - b.pos = 0 then b
    else ⟨b.content ++ strNCpy str (kMessageBufferSize - b.pos),
          b.pos + (kMessageBufferSize - b.pos)⟩
  else
    ⟨b.content ++ strNCpy str len, b.pos + len⟩

/-- Decimal rendering of a `%d`/`%i` argument. -/
def fmtDec (n : Nat) : List Char := (Nat.repr n).data

/-- One lowercase hexadecimal digit. -/
def hexDigit (n : Nat) : Char :=
  if n < 10 then Char.ofNat (48 + n) else Char.ofNat (97 + (n - 10))

/-- Rendering of `%04x` for a 16-bit code unit. -/
def hex4 (c : Nat) : List Char :=
  [hexDigit (c / 4096 % 16), hexDigit (c / 256 % 16),
   hexDigit (c / 16 % 16), hexDigit (c % 16)]

/-- Rendering of `%02x` for a code unit below `0x100`. -/
def hex2 (c : Nat) : List Char :=
  [hexDigit (c / 16 % 16), hexDigit (c % 16)]

/-- The per-character rendering of `AppendDetailed`'s escape loop body: the
rendered fragment handed to `Append`/`AppendVA` for code unit `c` (in the
source's branch order). -/
def encodeDetailedChar (c : Nat) : List Char :=
  if c > 0xff then '\\' :: 'u' :: hex4 c
  else if c < 32 ∨ c > 126 then '\\' :: 'x' :: hex2 c
  else if c = 44 then ['\\', ',']
  else if c = 92 then ['\\', '\\']
  else if c = 34 then ['"', '"']
  else [Char.ofNat c]

/-- `Log::MessageBuilder::AppendDetailed(str, show_impl_info)`: null strings
are a no-op; the loop length is the string length capped at `0x1000`; the
impl-info prefix tags the representation and emits `:%i:` with the
*uncapped* `str->length()`; then each of the first `len` code units is
escaped into the buffer. -/
def appendDetailed (str : Option HeapString) (showImplInfo : Bool)
    (b : Builder) : Builder :=
  match str with
  | none => b
  | some s =>
    let len := if s.codes.length > 0x1000 then 0x1000 else s.codes.length
    let b :=
      if showImplInfo then
        let b := appendChar (if s.oneByte then 'a' else '2') b
        let b := if s.external then appendChar 'e' b else b
        let b := if s.internalized then appendChar '#' b else b
        appendVA (':' :: fmtDec s.codes.length ++ [':']) b
      else b
    (s.codes.take len).foldl (fun acc c => appendVA (encodeDetailedChar c) acc) b

/-- `Log::MessageBuilder::AppendDoubleQuotedString(string)`: wrap in double
quotes, preceding each embedded `"` with a backslash, one character at a
time through `Append(char)`.  The argument is the NUL-terminated string's
characters. -/
def appendDoubleQuotedString (s : List Char) (b : Builder) : Builder :=
  appendChar '"'
    (s.foldl
      (fun acc p => if p = '"' then appendChar p (appendChar '\\' acc)
                    else appendChar p acc)
      (appendChar '"' b))

/-- The per-character rendering used by `AppendUnbufferedHeapString`:
printable ASCII is passed through (with `"` doubled and `\` doubled), code
units above `0xff` become a 6-byte `\u%04x` token, everything else a 4-byte
`\x%02x` token. -/
def encodeUnbufferedChar (c : Nat) : List Char :=
  if 32 ≤ c ∧ c ≤ 126 then
    if c = 34 then ['"', '"']
    else if c = 92 then ['\\', '\\']
    else [Char.ofNat c]
  else if c > 0xff then '\\' :: 'u' :: hex4 c
  else '\\' :: 'x' :: hex2 c

/-- `Log::MessageBuilder::AppendUnbufferedHeapString(str)`: null strings are
a no-op; otherwise every code unit's rendering is written straight through
`log_->WriteToFile`, bypassing the shared buffer. -/
def appendUnbufferedHeapString (oracle : Nat → Nat) (str : Option HeapString)
    (log : LogState) : LogState :=
  match str with
  | none => log
  | some s =>
    s.codes.foldl
      (fun acc c => (writeToFile oracle acc (encodeUnbufferedChar c)).2) log

/-- The outcome of `Log::MessageBuilder::WriteToLogFile`. -/
structure FlushResult where
  /-- The byte region `message_buffer_[0, pos_)` handed to `WriteToFile`. -/
  requestedBytes : List Char
  /-- The byte count `pos_` requested from the channel. -/
  requestedLen : Nat
  /-- The byte count the channel reported as written. -/
  reported : Nat
  /-- The channel state after the flush. -/
  log : LogState
  /-- The builder state after the flush. -/
  builder : Builder
deriving Repr

/-- `Log::MessageBuilder::WriteToLogFile`: if the cursor is at capacity,
back it off by one byte; append the `'\n'` terminator and advance; hand
`message_buffer_[0, pos_)` to `WriteToFile` in one call; if the reported
count differs from `pos_`, stop the log and notify the failure sink. -/
def writeToLogFile (oracle : Nat → Nat) (log : LogState) (b : Builder) :
    FlushResult :=
  let p := if b.pos = kMessageBufferSize then b.pos - 1 else b.pos
  let content := b.content.take p ++ ['\n']
  let pos := p + 1
  let (written, log) := writeToFile oracle log content
  let log := if written ≠ pos then logFailure (stop log) else log
  ⟨content, pos, written, log, ⟨content, pos⟩⟩

/-- `Log::Close`: if a destination is open, `fclose` it unless `FLAG_logfile`
names the temporary-file sentinel, in which case the still-open handle is
returned; in every case clear the handle, release the message buffer, and
reset `is_stopped_`.  `returned` is the function's result, `fclosed` the
handle passed to `fclose`, if any. -/
structure CloseResult where
  returned : Option Nat
  fclosed : Option Nat
  after : LogState
deriving DecidableEq, Repr

/-- `Log::Close` (see `CloseResult`). -/
def close (log : LogState) : CloseResult :=
  let cleared : LogState :=
    { log with outputHandle := none, messageBufferAllocated := false,
               isStopped := false }
  match log.outputHandle with
  | none => ⟨none, none, cleared⟩
  | some h =>
    if log.flagLogfile = kLogToTemporaryFile then ⟨some h, none, cleared⟩
    else ⟨none, some h, cleared⟩

/-- The rendered version-record format of `Log::Initialize`:
`"v8-version,%d,%d,%d,%d,%d"` when the embedder string is empty, else
`"v8-version,%d,%d,%d,%d,%s,%d"` (a C++ `bool` renders through `%d` as
`0`/`1`). -/
def versionFormat (major minor build patch : Nat) (embedder : List Char)
    (candidate : Bool) : List Char :=
  if embedder.length = 0 then
    ['v', '8', '-', 'v', 'e', 'r', 's', 'i', 'o', 'n', ','] ++ fmtDec major ++ [','] ++ fmtDec minor ++ [','] ++
      fmtDec build ++ [','] ++ fmtDec patch ++ [','] ++
      (if candidate then ['1'] else ['0'])
  else
    ['v', '8', '-', 'v', 'e', 'r', 's', 'i', 'o', 'n', ','] ++ fmtDec major ++ [','] ++ fmtDec minor ++ [','] ++
      fmtDec build ++ [','] ++ fmtDec patch ++ [','] ++ embedder ++ [','] ++
      (if candidate then ['1'] else ['0'])

/-- The version-record emission of `Log::Initialize` when the open
succeeded: one fresh `MessageBuilder`, one `Append` of the version format,
one `WriteToLogFile`. -/
def initVersionFlush (oracle : Nat → Nat) (log : LogState)
    (major minor build patch : Nat) (embedder : List Char)
    (candidate : Bool) : FlushResult :=
  writeToLogFile oracle log
    (appendVA (versionFormat major minor build patch embedder candidate)
      Builder.empty)

/-- The character-level rendering of `AppendDoubleQuotedString`'s loop: each
embedded `"` is preceded by a backslash, every other character passes
through. -/
def escapeQuoted (s : List Char) : List Char :=
  s.flatMap (fun c => if c = '"' then ['\\', '"'] else [c])

/-- The decoder for `escapeQuoted`: replace each backslash-quote pair by a
quote, scanning left to right. -/
def unescapeQuotes : List Char → List Char
  | [] => []
  | [c] => [c]
  | c :: d :: rest =>
    if c = '\\' ∧ d = '"' then '"' :: unescapeQuotes rest
    else c :: unescapeQuotes (d :: rest)

/-- The impl-info prefix emitted by `AppendDetailed` when `show_impl_info`
is set: the representation tag (`a`/`2`), an `e` for external strings, a
`#` for internalized strings, then `:<length>:` with the *uncapped* string
length. -/
def implMarker (s : HeapString) : List Char :=
  (if s.oneByte then ['a'] else ['2']) ++
  (if s.external then ['e'] else []) ++
  (if s.internalized then ['#'] else []) ++
  ':' :: fmtDec s.codes.length ++ [':']

/-! ## Basic lemmas about the append primitives -/

theorem appendChar_fits (c : Char) (b : Builder)
    (h : b.pos < kMessageBufferSize) :
    appendChar c b = ⟨b.content ++ [c], b.pos + 1⟩ := by
  simp [appendChar, h]

theorem appendVA_fits (rendered : List Char) (b : Builder)
    (h : b.pos + rendered.length < kMessageBufferSize) :
    appendVA rendered b = ⟨b.content ++ rendered, b.pos + rendered.length⟩ := by
  have hlt : rendered.length < kMessageBufferSize - b.pos := by omega
  simp [appendVA, hlt]

theorem appendVA_content_extends (rendered : List Char) (b : Builder) :
    ∃ t, (appendVA rendered b).content = b.content ++ t := by
  unfold appendVA
  split
  · exact ⟨rendered, rfl⟩
  · split
    · exact ⟨[], by simp⟩
    · exact ⟨rendered.take (kMessageBufferSize - b.pos - 1) ++ [nulChar],
        by simp⟩

theorem foldl_appendVA_content_extends (enc : Nat → List Char)
    (cs : List Nat) (b : Builder) :
    ∃ t, (cs.foldl (fun acc c => appendVA (enc c) acc) b).content
      = b.content ++ t := by
  induction cs generalizing b with
  | nil => exact ⟨[], by simp⟩
  | cons c cs ih =>
    obtain ⟨t₁, h₁⟩ := appendVA_content_extends (enc c) b
    obtain ⟨t₂, h₂⟩ := ih (appendVA (enc c) b)
    exact ⟨t₁ ++ t₂, by simp [h₂, h₁]⟩

theorem foldl_appendVA_fits (enc : Nat → List Char) (cs : List Nat)
    (b : Builder)
    (hfit : b.pos + (cs.flatMap enc).length + 1 ≤ kMessageBufferSize) :
    cs.foldl (fun acc c => appendVA (enc c) acc) b
      = ⟨b.content ++ cs.flatMap enc, b.pos + (cs.flatMap enc).length⟩ := by
  induction cs generalizing b with
  | nil => simp
  | cons c cs ih =>
    have hlen : ((c :: cs).flatMap enc).length
        = (enc c).length + (cs.flatMap enc).length := by simp
    have hstep : b.pos + (enc c).length < kMessageBufferSize := by omega
    have hrest : (b.pos + (enc c).length) + (cs.flatMap enc).length + 1
        ≤ kMessageBufferSize := by omega
    rw [List.foldl_cons, appendVA_fits (enc c) b hstep, ih _ hrest]
    simp only [List.flatMap_cons, Builder.mk.injEq]
    refine ⟨by simp [List.append_assoc], by simp; omega⟩

theorem appendVA_pos_le (rendered : List Char) (b : Builder)
    (h : b.pos ≤ kMessageBufferSize) :
    (appendVA rendered b).pos ≤ kMessageBufferSize := by
  unfold appendVA
  split
  · show b.pos + rendered.length ≤ kMessageBufferSize
    omega
  · split
    · exact Nat.le_refl _
    · exact Nat.le_refl _

theorem appendVA_pos_pin (rendered : List Char) (b : Builder)
    (h : kMessageBufferSize - b.pos ≤ rendered.length) :
    (appendVA rendered b).pos = kMessageBufferSize := by
  unfold appendVA
  split
  · omega
  · split
    · rfl
    · rfl

theorem appendChar_pos_le (c : Char) (b : Builder)
    (h : b.pos ≤ kMessageBufferSize) :
    (appendChar c b).pos ≤ kMessageBufferSize := by
  unfold appendChar
  split
  · show b.pos + 1 ≤ kMessageBufferSize
    omega
  · exact h

theorem appendStringPart_pos_le (str : List Char) (len : Nat) (b : Builder)
    (h : b.pos ≤ kMessageBufferSize) :
    (appendStringPart str len b).pos ≤ kMessageBufferSize := by
  unfold appendStringPart
  split
  · split
    · exact h
    · show b.pos + (kMessageBufferSize - b.pos) ≤ kMessageBufferSize
      omega
  · show b.pos + len ≤ kMessageBufferSize
    omega

theorem appendChar_inv (c : Char) (b : Builder) (h : b.inv) :
    (appendChar c b).inv := by
  have h' : b.content.length = b.pos := h
  unfold appendChar Builder.inv
  split <;> simp [h']

theorem appendVA_inv (rendered : List Char) (b : Builder) (h : b.inv)
    (hpos : b.pos ≤ kMessageBufferSize) : (appendVA rendered b).inv := by
  have h' : b.content.length = b.pos := h
  unfold appendVA Builder.inv
  split
  · simp [h']
  · split <;> simp [h', List.length_take] <;> omega

theorem appendStringPart_inv (str : List Char) (len : Nat) (b : Builder)
    (h : b.inv) : (appendStringPart str len b).inv := by
  have h' : b.content.length = b.pos := h
  unfold appendStringPart Builder.inv strNCpy
  split
  · split
    · exact h
    · simp [h', List.length_take, List.length_replicate]
      omega
  · simp [h', List.length_take, List.length_replicate]
    omega

/-! ## Claim theorems -/

/-- Claim C3: every append operation keeps the write cursor within the
buffer capacity — a cursor at most `kMessageBufferSize` before the call is
at most `kMessageBufferSize` after it, with `AppendVA` pinning the cursor
to capacity on a truncation signal. -/
theorem append_never_exceeds_capacity (b : Builder)
    (h : b.pos ≤ kMessageBufferSize) :
    (∀ rendered, (appendVA rendered b).pos ≤ kMessageBufferSize)
    ∧ (∀ rendered, kMessageBufferSize - b.pos ≤ rendered.length →
        (appendVA rendered b).pos = kMessageBufferSize)
    ∧ (∀ c, (appendChar c b).pos ≤ kMessageBufferSize)
    ∧ (∀ str len, (appendStringPart str len b).pos ≤ kMessageBufferSize) :=
  ⟨fun rendered => appendVA_pos_le rendered b h,
   fun rendered hr => appendVA_pos_pin rendered b hr,
   fun c => appendChar_pos_le c b h,
   fun str len => appendStringPart_pos_le str len b h⟩

/-- Witness for C3 at a concrete builder state: a 2999-byte rendering into
an empty builder pins the cursor to capacity, and a single character stays
within capacity. -/
theorem append_never_exceeds_capacity_witness :
    (appendVA (List.replicate 2999 'x') Builder.empty).pos
      = kMessageBufferSize
    ∧ (appendChar 'x' Builder.empty).pos ≤ kMessageBufferSize :=
  ⟨(append_never_exceeds_capacity Builder.empty (by decide)).2.1
      (List.replicate 2999 'x')
      (by simp only [kMessageBufferSize, Builder.empty, List.length_replicate]
          omega),
   (append_never_exceeds_capacity Builder.empty (by decide)).2.2.1 'x'⟩

/-- Claim C10: `AppendDetailed` and `AppendUnbufferedHeapString` called on a
null string pointer are silent no-ops — the builder (buffer and cursor) and
the channel state are unchanged, and nothing is written through the
channel. -/
theorem null_string_append_noop (oracle : Nat → Nat) (showImplInfo : Bool)
    (b : Builder) (log : LogState) :
    appendDetailed none showImplInfo b = b
    ∧ appendUnbufferedHeapString oracle none log = log :=
  ⟨rfl, rfl⟩

theorem detailedLoopLen_take (codes : List Nat) :
    codes.take (if codes.length > 4096 then 4096 else codes.length)
      = codes.take 4096 := by
  rcases le_or_lt codes.length 4096 with h | h
  · rw [if_neg (by omega), List.take_length, List.take_of_length_le h]
  · rw [if_pos h]

/-- Claim C2: code units past the 4096-character cap produce no output at
all — for every string and every builder state, `AppendDetailed` (impl-info
off) behaves exactly as it does on the string truncated to its first 4096
code units; and when the encoded output fits in the remaining buffer space,
it appends exactly the concatenation of the per-character encodings of
those first `min(length, 4096)` code units, where `encodeDetailedChar`
emits `\u%04x` above `0xFF`, `\x%02x` below `0x20` or above `0x7E`, `\,`
for a comma, `\\` for a backslash, `""` for a double quote, and the
character itself otherwise. -/
theorem append_detailed_encoding (s : HeapString) (b : Builder) :
    appendDetailed (some s) false b
      = appendDetailed
          (some ⟨s.codes.take 4096, s.oneByte, s.external, s.internalized⟩)
          false b
    ∧ (b.pos + ((s.codes.take 4096).flatMap encodeDetailedChar).length + 1
          ≤ kMessageBufferSize →
        appendDetailed (some s) false b
          = ⟨b.content ++ (s.codes.take 4096).flatMap encodeDetailedChar,
             b.pos +
              ((s.codes.take 4096).flatMap encodeDetailedChar).length⟩) := by
  constructor
  · simp only [appendDetailed, Bool.false_eq_true, if_false]
    rw [detailedLoopLen_take s.codes, detailedLoopLen_take (s.codes.take 4096),
        List.take_take, Nat.min_self]
  · intro hfit
    simp only [appendDetailed, Bool.false_eq_true, if_false]
    rw [detailedLoopLen_take s.codes]
    exact foldl_appendVA_fits _ _ _ hfit

/-- Witness for C2: a 5000-code-unit string is encoded exactly as its
4096-unit truncation (the cap), and a string containing a printable
character, a comma, a backslash, a double quote, a control character and a
two-byte code unit is encoded as `A`, `\,`, `\\`, `""`, `\x05`, `ሴ`
respectively. -/
theorem append_detailed_encoding_witness :
    appendDetailed (some ⟨List.replicate 5000 65, true, false, false⟩)
        false Builder.empty
      = appendDetailed
          (some ⟨(List.replicate 5000 65).take 4096, true, false, false⟩)
          false Builder.empty
    ∧ appendDetailed (some ⟨[65, 44, 92, 34, 5, 4660], true, false, false⟩)
        false Builder.empty
      = ⟨['A', '\\', ',', '\\', '\\', '"', '"', '\\', 'x', '0', '5',
          '\\', 'u', '1', '2', '3', '4'], 17⟩ :=
  ⟨(append_detailed_encoding ⟨List.replicate 5000 65, true, false, false⟩
      Builder.empty).1,
   (((append_detailed_encoding ⟨[65, 44, 92, 34, 5, 4660], true, false,
        false⟩ Builder.empty).2) (by decide)).trans (by decide)⟩

/-- Claim C4: `WriteToLogFile` appends exactly one line terminator to the
accumulated content (backing the cursor off by one byte first when it sits
at capacity, so the terminator replaces the last byte) and hands the whole
`[0, pos_)` region to the channel in a single call; the requested byte
count never exceeds the buffer capacity. -/
theorem flush_single_terminated_write (oracle : Nat → Nat) (log : LogState)
    (b : Builder) (hinv : b.inv) (hpos : b.pos ≤ kMessageBufferSize) :
    (writeToLogFile oracle log b).requestedBytes
      = (if b.pos = kMessageBufferSize
         then b.content.take (kMessageBufferSize - 1)
         else b.content) ++ ['\n']
    ∧ (writeToLogFile oracle log b).requestedLen
        = (writeToLogFile oracle log b).requestedBytes.length
    ∧ (writeToLogFile oracle log b).requestedLen ≤ kMessageBufferSize
    ∧ (writeToLogFile oracle log b).log.writeCalls
        = (if isEnabled log then
            log.writeCalls ++ [(writeToLogFile oracle log b).requestedBytes]
           else log.writeCalls) := by
  have hcap : 0 < kMessageBufferSize := by decide
  have hinv' : b.content.length = b.pos := hinv
  unfold writeToLogFile writeToFile
  by_cases hen : isEnabled log <;> by_cases hp : b.pos = kMessageBufferSize <;>
    simp only [hen, hp, if_true, if_false, ite_true, ite_false] <;>
    refine ⟨?_, ?_, ?_, ?_⟩ <;>
    first
      | omega
      | (split <;>
          first
            | omega
            | (simp_all [stop, logFailure, List.length_take, List.take_length]
                <;> omega))
      | (simp_all [stop, logFailure, List.length_take, List.take_length] <;>
          omega)

/-- Witness for C4: flushing a builder holding `x` emits exactly `x\n`, and
the requested length is within capacity. -/
theorem flush_single_terminated_write_witness :
    (writeToLogFile (fun n => n) ⟨some 1, true, false, 0, ['-'], []⟩
        ⟨['x'], 1⟩).requestedBytes = ['x', '\n']
    ∧ (writeToLogFile (fun n => n) ⟨some 1, true, false, 0, ['-'], []⟩
        ⟨['x'], 1⟩).requestedLen ≤ kMessageBufferSize :=
  ⟨((flush_single_terminated_write (fun n => n)
      ⟨some 1, true, false, 0, ['-'], []⟩ ⟨['x'], 1⟩ (by simp [Builder.inv])
      (by decide)).1).trans (by decide),
   (flush_single_terminated_write (fun n => n)
      ⟨some 1, true, false, 0, ['-'], []⟩ ⟨['x'], 1⟩ (by simp [Builder.inv])
      (by decide)).2.2.1⟩

/-- Claim C5: during flush, the channel is stopped and the failure sink
notified exactly once precisely when the reported write count differs from
the requested count; when they agree, no stop and no notification occur. -/
theorem flush_failure_escalation (oracle : Nat → Nat) (log : LogState)
    (b : Builder) :
    (writeToLogFile oracle log b).log.isStopped
      = (if (writeToLogFile oracle log b).reported
            = (writeToLogFile oracle log b).requestedLen
         then log.isStopped else true)
    ∧ (writeToLogFile oracle log b).log.logFailures
      = (if (writeToLogFile oracle log b).reported
            = (writeToLogFile oracle log b).requestedLen
         then log.logFailures else log.logFailures + 1) := by
  unfold writeToLogFile writeToFile
  by_cases hen : isEnabled log <;>
    simp only [hen, if_true, if_false, ite_true, ite_false] <;>
    split <;> split <;> simp_all [stop, logFailure]

/-- Claim C1: the start-up version record emitted by `Log::Initialize` when
the log was opened successfully is exactly one record whose flushed content
is `v8-version,<major>,<minor>,<build>,<patch>,<candidate:0|1>` plus one
line terminator when the embedder string is empty, and
`v8-version,<major>,<minor>,<build>,<patch>,<embedder>,<candidate:0|1>`
plus one line terminator otherwise. -/
theorem version_record_layout (oracle : Nat → Nat) (log : LogState)
    (major minor build patch : Nat) (embedder : List Char) (candidate : Bool)
    (hen : isEnabled log = true)
    (hfit : (versionFormat major minor build patch embedder candidate).length
      < kMessageBufferSize) :
    (initVersionFlush oracle log major minor build patch embedder
        candidate).requestedBytes
      = (if embedder.length = 0 then
          ['v', '8', '-', 'v', 'e', 'r', 's', 'i', 'o', 'n', ','] ++ fmtDec major ++ [','] ++ fmtDec minor ++
            [','] ++ fmtDec build ++ [','] ++ fmtDec patch ++ [','] ++
            (if candidate then ['1'] else ['0'])
         else
          ['v', '8', '-', 'v', 'e', 'r', 's', 'i', 'o', 'n', ','] ++ fmtDec major ++ [','] ++ fmtDec minor ++
            [','] ++ fmtDec build ++ [','] ++ fmtDec patch ++ [','] ++
            embedder ++ [','] ++
            (if candidate then ['1'] else ['0'])) ++ ['\n']
    ∧ (initVersionFlush oracle log major minor build patch embedder
        candidate).log.writeCalls
      = log.writeCalls ++
          [(initVersionFlush oracle log major minor build patch embedder
              candidate).requestedBytes] := by
  have hva : appendVA (versionFormat major minor build patch embedder
      candidate) Builder.empty
      = ⟨Builder.empty.content ++
          versionFormat major minor build patch embedder candidate,
         Builder.empty.pos +
          (versionFormat major minor build patch embedder candidate).length⟩ :=
    appendVA_fits _ _ (by simpa [Builder.empty] using hfit)
  unfold initVersionFlush
  rw [hva]
  unfold writeToLogFile writeToFile
  simp only [Builder.empty, List.nil_append, Nat.zero_add, hen, if_true,
    ite_true]
  rw [if_neg (by omega)]
  constructor
  · split <;> simp only [List.take_length] <;> rw [versionFormat] <;> simp_all
  · split <;> simp [stop, logFailure]

/-- Witness for C1: version 7.2.1.0, no embedder, candidate `false` flushes
exactly `v8-version,7,2,1,0,0\n`. -/
theorem version_record_layout_witness :
    (initVersionFlush (fun n => n) ⟨some 1, true, false, 0, ['-'], []⟩
        7 2 1 0 [] false).requestedBytes
      = "v8-version,7,2,1,0,0\n".data :=
  ((version_record_layout (fun n => n) ⟨some 1, true, false, 0, ['-'], []⟩
      7 2 1 0 [] false rfl (by decide)).1).trans (by decide)

theorem foldl_quoted_fits (s : List Char) (b : Builder)
    (hfit : b.pos + (escapeQuoted s).length ≤ kMessageBufferSize) :
    s.foldl (fun acc p => if p = '"' then appendChar p (appendChar '\\' acc)
      else appendChar p acc) b
      = ⟨b.content ++ escapeQuoted s, b.pos + (escapeQuoted s).length⟩ := by
  induction s generalizing b with
  | nil => simp [escapeQuoted]
  | cons c t ih =>
    by_cases hc : c = '"'
    · have he : escapeQuoted (c :: t) = '\\' :: '"' :: escapeQuoted t := by
        simp [escapeQuoted, hc]
      rw [he] at hfit
      simp only [List.length_cons] at hfit
      simp only [List.foldl_cons, if_pos hc]
      rw [appendChar_fits '\\' b (by omega)]
      rw [appendChar_fits c _ (by simp; omega)]
      rw [ih _ (by simp; omega)]
      rw [he, hc]
      simp [List.append_assoc] <;> omega
    · have he : escapeQuoted (c :: t) = c :: escapeQuoted t := by
        simp [escapeQuoted, hc]
      rw [he] at hfit
      simp only [List.length_cons] at hfit
      simp only [List.foldl_cons, if_neg hc]
      rw [appendChar_fits c b (by omega)]
      rw [ih _ (by simp; omega)]
      simp [he, List.append_assoc]
      omega

theorem escapeQuoted_head_ne_quote (t : List Char) (c : Char)
    (rest : List Char) (h : escapeQuoted t = c :: rest) : c ≠ '"' := by
  cases t with
  | nil => simp [escapeQuoted] at h
  | cons a t =>
    by_cases ha : a = '"'
    · simp [escapeQuoted, ha] at h
      rcases h with ⟨h1, h2⟩
      rw [← h1]
      decide
    · simp [escapeQuoted, ha] at h
      rcases h with ⟨h1, h2⟩
      rw [← h1]
      exact ha

theorem escapeQuoted_eq_nil (t : List Char) (h : escapeQuoted t = []) :
    t = [] := by
  cases t with
  | nil => rfl
  | cons a t => by_cases ha : a = '"' <;> simp [escapeQuoted, ha] at h

theorem unescape_escape (s : List Char) :
    unescapeQuotes (escapeQuoted s) = s := by
  induction s with
  | nil => rfl
  | cons c t ih =>
    by_cases hc : c = '"'
    · have he : escapeQuoted (c :: t) = '\\' :: '"' :: escapeQuoted t := by
        simp [escapeQuoted, hc]
      rw [he, hc]
      simp [unescapeQuotes, ih]
    · have he : escapeQuoted (c :: t) = c :: escapeQuoted t := by
        simp [escapeQuoted, hc]
      rw [he]
      cases ht : escapeQuoted t with
      | nil =>
        rw [escapeQuoted_eq_nil t ht]
        simp [unescapeQuotes]
      | cons d rest =>
        have hd : d ≠ '"' := escapeQuoted_head_ne_quote t d rest ht
        have : unescapeQuotes (c :: d :: rest) = c :: unescapeQuotes (d :: rest) := by
          simp [unescapeQuotes, hd]
        rw [this, ← ht, ih]

/-- Claim C6: when its output fits in the remaining capacity,
`AppendDoubleQuotedString` appends exactly an opening quote, the input with
each embedded double quote preceded by a backslash, and a closing quote;
stripping the wrapping quotes and un-escaping backslash-quote pairs
recovers the input. -/
theorem quoted_string_escape_roundtrip (s : List Char) (b : Builder)
    (hfit : b.pos + (escapeQuoted s).length + 2 ≤ kMessageBufferSize) :
    appendDoubleQuotedString s b
      = ⟨b.content ++ '"' :: escapeQuoted s ++ ['"'],
         b.pos + (escapeQuoted s).length + 2⟩
    ∧ unescapeQuotes (escapeQuoted s) = s := by
  refine ⟨?_, unescape_escape s⟩
  unfold appendDoubleQuotedString
  rw [appendChar_fits '"' b (by omega)]
  rw [foldl_quoted_fits s _ (by simp; omega)]
  rw [appendChar_fits '"' _ (by simp; omega)]
  simp [List.append_assoc]
  omega

/-- Witness for C6: `a"` is emitted as `"a\""` and decodes back to `a"`. -/
theorem quoted_string_escape_roundtrip_witness :
    appendDoubleQuotedString ['a', '"'] Builder.empty
      = ⟨['"', 'a', '\\', '"', '"'], 5⟩
    ∧ unescapeQuotes (escapeQuoted ['a', '"']) = ['a', '"'] :=
  ⟨((quoted_string_escape_roundtrip ['a', '"'] Builder.empty
      (by decide)).1).trans (by decide),
   (quoted_string_escape_roundtrip ['a', '"'] Builder.empty (by decide)).2⟩

/-- Claim C7: `Log::Close` hands back the still-open handle (without
closing) when `FLAG_logfile` names the anonymous-temp-file sentinel, closes
and discards the handle on any other open destination, in every case
disables the channel and releases the shared buffer's storage, and is a
no-op returning nothing when the channel is already disabled. -/
theorem close_behavior (log : LogState) :
    (close log).returned
      = (if log.flagLogfile = kLogToTemporaryFile then log.outputHandle
         else none)
    ∧ (close log).fclosed
      = (if log.flagLogfile = kLogToTemporaryFile then none
         else log.outputHandle)
    ∧ (close log).after.outputHandle = none
    ∧ isEnabled (close log).after = false
    ∧ (close log).after.messageBufferAllocated = false
    ∧ (log.outputHandle = none →
        (close log).returned = none ∧ (close log).fclosed = none
        ∧ (log.messageBufferAllocated = false → log.isStopped = false →
            (close log).after = log)) := by
  obtain ⟨oh, mb, st, lf, fl, wc⟩ := log
  by_cases hf : fl = kLogToTemporaryFile <;> cases oh <;>
    refine ⟨?_, ?_, ?_, ?_, ?_, fun hnone => ⟨?_, ?_, fun hmb hst => ?_⟩⟩ <;>
      simp_all [close, isEnabled]

/-- Witness for C7: with the temp-file sentinel the open handle is returned
unclosed; closing an already-disabled channel returns nothing and leaves
the state unchanged. -/
theorem close_behavior_witness :
    (close ⟨some 5, true, false, 0, ['&'], []⟩).returned = some 5
    ∧ (close ⟨some 5, true, false, 0, ['&'], []⟩).fclosed = none
    ∧ (close ⟨none, false, false, 0, ['-'], []⟩).returned = none
    ∧ (close ⟨none, false, false, 0, ['-'], []⟩).after
        = ⟨none, false, false, 0, ['-'], []⟩ :=
  ⟨((close_behavior ⟨some 5, true, false, 0, ['&'], []⟩).1).trans (by decide),
   ((close_behavior ⟨some 5, true, false, 0, ['&'], []⟩).2.1).trans
     (by decide),
   (((close_behavior ⟨none, false, false, 0, ['-'], []⟩).2.2.2.2.2) rfl).1,
   ((((close_behavior ⟨none, false, false, 0, ['-'], []⟩).2.2.2.2.2)
      rfl).2.2) rfl rfl⟩

theorem appendCharIf_fits (cond : Bool) (c : Char) (b : Builder)
    (h : b.pos < kMessageBufferSize) :
    (if cond then appendChar c b else b)
      = ⟨b.content ++ (if cond then [c] else []),
         b.pos + (if cond then 1 else 0)⟩ := by
  cases cond
  · simp
  · simp [appendChar_fits c b h]

theorem foldl_detailed_extends (cs : List Nat) (b0 : Builder)
    (pre : List Char) (hpre : b0.content = pre) :
    ∃ rest,
      (cs.foldl (fun acc c => appendVA (encodeDetailedChar c) acc) b0).content
        = pre ++ rest := by
  obtain ⟨t, ht⟩ := foldl_appendVA_content_extends encodeDetailedChar cs b0
  exact ⟨t, by rw [ht, hpre]⟩

/-- Claim C9: on a string longer than 4096 code units with the impl-info
flag set, `AppendDetailed` emits its `:<length>:` marker with the string's
full, uncapped length — the `0x1000` cap applies only to the escape loop,
not to the reported length. -/
theorem impl_info_reports_uncapped_length (s : HeapString) (b : Builder)
    (_hlen : 4096 < s.codes.length)
    (hfit : b.pos + (implMarker s).length < kMessageBufferSize) :
    ∃ rest, (appendDetailed (some s) true b).content
      = (b.content ++ implMarker s) ++ rest := by
  have hM : (implMarker s).length
      = 1 + (if s.external then 1 else 0) + (if s.internalized then 1 else 0)
        + ((fmtDec s.codes.length).length + 2) := by
    cases hex : s.external <;> cases hin : s.internalized <;>
      cases hob : s.oneByte <;> simp [implMarker, hex, hin, hob] <;> omega
  rw [hM] at hfit
  have h1 : b.pos < kMessageBufferSize := by omega
  simp only [appendDetailed, eq_self_iff_true, if_true]
  rw [appendChar_fits (if s.oneByte then 'a' else '2') b h1]
  rw [appendCharIf_fits s.external 'e'
      ⟨b.content ++ [(if s.oneByte then 'a' else '2')], b.pos + 1⟩
      (by simp; omega)]
  dsimp only
  rw [appendCharIf_fits s.internalized '#'
      ⟨b.content ++ [(if s.oneByte then 'a' else '2')]
        ++ (if s.external then ['e'] else []),
       b.pos + 1 + (if s.external then 1 else 0)⟩
      (by simp; omega)]
  dsimp only
  rw [appendVA_fits (':' :: fmtDec s.codes.length ++ [':'])
      ⟨b.content ++ [(if s.oneByte then 'a' else '2')]
        ++ (if s.external then ['e'] else [])
        ++ (if s.internalized then ['#'] else []),
       b.pos + 1 + (if s.external then 1 else 0)
        + (if s.internalized then 1 else 0)⟩
      (by simp; omega)]
  refine foldl_detailed_extends _ _ _ ?_
  cases hob : s.oneByte <;> simp [implMarker, hob, List.append_assoc]

/-- Witness for C9: a 4097-code-unit string's impl-info marker reports
length 4097, not 4096. -/
theorem impl_info_reports_uncapped_length_witness :
    ∃ rest,
      (appendDetailed (some ⟨List.replicate 4097 65, true, false, false⟩)
        true Builder.empty).content
      = (Builder.empty.content
          ++ implMarker ⟨List.replicate 4097 65, true, false, false⟩) ++ rest :=
  impl_info_reports_uncapped_length
    ⟨List.replicate 4097 65, true, false, false⟩ Builder.empty
    (by simp only [List.length_replicate]; decide)
    (by simp only [Builder.empty, implMarker, List.length_replicate]; decide)

end LogUtils
